import Mathlib

/-!
Shallow embedding of the SQL generation/sanitization service
(`app.py`, `schema.py`) of the natural-language-to-SQL repository,
together with proofs of the testable properties of its specification.

Text is modelled as `String` / `List Char`.  The Python regular
expressions used by the source are embedded as explicit left-to-right
scanners with the exact semantics of `re.sub` (leftmost match, scanning
resumes after the end of the match in the original text).  Python's
`str.lower` / `\w` / `\s` are modelled at ASCII precision, which covers
every string the source manipulates.
-/

namespace NL2SQL

/-- The backtick character (code-fence marker character). -/
def bt : Char := Char.ofNat 96

/-- Python `\s` / `str.strip` whitespace at ASCII precision:
space, tab, newline, carriage return, vertical tab, form feed. -/
def isPySpace (c : Char) : Bool :=
  c == ' ' || c == '\t' || c == '\n' || c == '\r' || c == '\x0b' || c == '\x0c'

/-- Python regex `\w` (ASCII): letters, digits, underscore. -/
def isWordChar (c : Char) : Bool := c.isAlpha || c.isDigit || c == '_'

/-- First character of the identifier class `[a-zA-Z_]` of the
qualification regex. -/
def isIdentStart (c : Char) : Bool := c.isAlpha || c == '_'

/-- Python `str.strip`: drop leading and trailing whitespace. -/
def stripList (l : List Char) : List Char :=
  ((l.dropWhile isPySpace).reverse.dropWhile isPySpace).reverse

/-- Python `str.lower` (ASCII precision). -/
def lowerList (l : List Char) : List Char := l.map Char.toLower

/-- Substring test: `containsSub n h` holds iff `n` occurs contiguously
inside `h` (Python's `in` operator on strings). -/
def containsSub (n : List Char) : List Char → Bool
  | [] => n.isEmpty
  | c :: t => n.isPrefixOf (c :: t) || containsSub n t

/-- Case-insensitive match of one pattern letter: the scanned character
lowercases to `target` (Python `re.IGNORECASE` at ASCII precision). -/
def isLowerOf (target c : Char) : Bool := c.toLower == target

/-- Match a list of per-character predicates against a prefix of the text. -/
def startsWithPreds : List (Char → Bool) → List Char → Bool
  | [], _ => true
  | _ :: _, [] => false
  | p :: ps, c :: cs => p c && startsWithPreds ps cs

/-- Character predicates for the opening-fence pattern constant part
of regex `\x60\x60\x60sql` with `re.IGNORECASE`: three literal backticks
then the letters s, q, l case-insensitively. -/
def sqlFencePreds : List (Char → Bool) :=
  [fun c => c == bt, fun c => c == bt, fun c => c == bt,
   fun c => isLowerOf 's' c, fun c => isLowerOf 'q' c, fun c => isLowerOf 'l' c]

/-- One attempted match of regex `\x60\x60\x60sql\s*` (IGNORECASE) at the
head of the text: on success return the text after the match (the six
pattern characters and the following greedy whitespace run). -/
def sqlFenceAt (cs : List Char) : Option (List Char) :=
  if startsWithPreds sqlFencePreds cs then some ((cs.drop 6).dropWhile isPySpace) else none

/-- `re.sub(r"\x60\x60\x60sql\s*", "", text, flags=re.IGNORECASE)`
(app.py line 103): remove every occurrence, scanning left to right.
The fuel argument bounds the number of scanning steps; each step
consumes at least one character, so `text.length` steps suffice. -/
def stripSqlFenceAux : Nat → List Char → List Char
  | 0, cs => cs
  | fuel + 1, cs =>
    match sqlFenceAt cs with
    | some rest => stripSqlFenceAux fuel rest
    | none =>
      match cs with
      | [] => []
      | c :: rest => c :: stripSqlFenceAux fuel rest

/-- Helper for the trailing-fence regex: if the (reversed) text starts
with three backticks, return the rest after also dropping the (reversed)
maximal whitespace run written before the fence. -/
def stfCore (r : List Char) : Option (List Char) :=
  match r with
  | a :: r1 =>
    if a == bt then
      match r1 with
      | b :: r2 =>
        if b == bt then
          match r2 with
          | c :: r3 =>
            if c == bt then some (r3.dropWhile isPySpace) else none
          | [] => none
        else none
      | [] => none
    else none
  | [] => none

/-- `re.sub(r"\s*\x60\x60\x60$", "", text)` (app.py line 104).  Python `$`
(without MULTILINE) matches at the end of the string or just before one
final newline, so the regex removes a maximal whitespace run followed by
three backticks sitting at the very end of the text (keeping one final
newline, if present). -/
def stripTrailingFence (cs : List Char) : List Char :=
  match cs.reverse with
  | [] => cs
  | c :: r1 =>
    if c == '\n' then
      match stfCore r1 with
      | some r2 => ('\n' :: r2).reverse
      | none => cs
    else
      match stfCore (c :: r1) with
      | some r2 => r2.reverse
      | none => cs

/-- Fence stripping, app.py lines 103-104: both substitutions in order. -/
def stripFences (s : String) : String :=
  ⟨stripTrailingFence (stripSqlFenceAux s.data.length s.data)⟩

/-- The tuple of leading keywords of app.py line 108. -/
def kws : List String := ["select", "show", "with", "describe", "explain", "use"]

/-- `line.strip().lower().startswith(kws)`: some keyword is a plain
string prefix of the trimmed, lowercased line (no word-boundary check). -/
def lineMatches (l : List Char) : Bool :=
  kws.any fun k => k.data.isPrefixOf (lowerList (stripList l))

/-- Split at newline characters (model of Python `str.splitlines` for
texts whose line separators are `\n`; the source applies it to stripped
text, so there is no trailing separator). -/
def splitNl : List Char → List (List Char)
  | [] => [[]]
  | c :: rest =>
    if c == '\n' then [] :: splitNl rest
    else
      match splitNl rest with
      | l :: ls => (c :: l) :: ls
      | [] => [[c]]

/-- Index of the first element satisfying `p` (the `for`/`break` scan of
app.py lines 107-110). -/
def findFirst {α : Type} (p : α → Bool) : List α → Option Nat
  | [] => none
  | x :: xs => if p x then some 0 else (findFirst p xs).map (· + 1)

/-- The line list `sql_text.strip().splitlines()` of app.py line 106. -/
def boundaryLines (t : String) : List (List Char) := splitNl (stripList t.data)

/-- Statement-boundary detection, app.py lines 106-110: find the first
line whose trimmed, lowercased content starts with a recognized keyword;
on a match keep `"\n".join(lines[i:])`, otherwise leave the text as is. -/
def statementBoundary (t : String) : String :=
  match findFirst lineMatches (boundaryLines t) with
  | some i => ⟨List.intercalate ['\n'] ((boundaryLines t).drop i)⟩
  | none => t

/-- Character predicates for `FROM` under `re.IGNORECASE`. -/
def fromPreds : List (Char → Bool) :=
  [isLowerOf 'f', isLowerOf 'r', isLowerOf 'o', isLowerOf 'm']

/-- Character predicates for `JOIN` under `re.IGNORECASE`. -/
def joinPreds : List (Char → Bool) :=
  [isLowerOf 'j', isLowerOf 'o', isLowerOf 'i', isLowerOf 'n']

/-- Match `FROM` or `JOIN` case-insensitively at the head of the text,
returning the matched keyword text (group 1, original casing) and the rest. -/
def matchKw (cs : List Char) : Option (List Char × List Char) :=
  if startsWithPreds fromPreds cs || startsWithPreds joinPreds cs then
    some (cs.take 4, cs.drop 4)
  else none

/-- Regex word boundary `\b` before a word character: holds at text
start or after a non-word character. -/
def isBoundaryOk : Option Char → Bool
  | none => true
  | some c => !(isWordChar c)

/-- One attempted match of regex `\b(FROM|JOIN)\s+([a-zA-Z_][\w]*)`
(IGNORECASE) at the current position.  `prev` is the character before
the position (for `\b`).  On success return group 1 (keyword), the
matched whitespace, group 2 (identifier) and the rest of the text. -/
def tryQualMatch (prev : Option Char) (cs : List Char) :
    Option (List Char × List Char × List Char × List Char) :=
  if isBoundaryOk prev then
    match matchKw cs with
    | some (kw, r1) =>
      let ws := r1.takeWhile isPySpace
      let r2 := r1.dropWhile isPySpace
      if ws.isEmpty then none
      else
        match r2 with
        | i :: r3 =>
          if isIdentStart i then
            some (kw, ws, i :: r3.takeWhile isWordChar, r3.dropWhile isWordChar)
          else none
        | [] => none
    | none => none
  else none

/-- The replacement function `repl` of app.py lines 59-63: if the
captured identifier contains a dot, keep the whole match unchanged,
otherwise emit `group(1) + " " + db_name + "." + table`.  (Note the
capture `[a-zA-Z_][\w]*` can never contain a dot; the branch is kept
exactly as written in the source.) -/
def qualRepl (db kw ws ident : List Char) : List Char :=
  if ident.contains '.' then kw ++ ws ++ ident
  else kw ++ [' '] ++ db ++ ['.'] ++ ident

/-- The `re.sub` scan of app.py line 64: leftmost match, replacement,
scanning resumes after the matched text; `prev` tracks the previous
character of the original text for `\b`.  Each step consumes at least
one character, so fuel `text.length` suffices. -/
def qualifyAux (db : List Char) : Nat → Option Char → List Char → List Char
  | 0, _, cs => cs
  | fuel + 1, prev, cs =>
    match tryQualMatch prev cs with
    | some (kw, ws, ident, rest) =>
      qualRepl db kw ws ident ++ qualifyAux db fuel (some (ident.getLastD ' ')) rest
    | none =>
      match cs with
      | [] => []
      | c :: rest => c :: qualifyAux db fuel (some c) rest

/-- `qualify_table_names` of app.py lines 58-64. -/
def qualify_table_names (sqlText dbName : String) : String :=
  ⟨qualifyAux dbName.data sqlText.data.length none sqlText.data⟩


/-- Modelled from the spec: the external `sqlparse` library used at
app.py line 118 splits the text into statements; per the spec the
normalization step "take[s] the first parsed statement if multiple are
present".  Modelled as splitting after each `;` (string-literal and
comment awareness of the library is not exercised by the source).
Accumulator-based scan; `acc` holds the current statement reversed. -/
def splitStmtsAux : List Char → List Char → List (List Char)
  | acc, [] => [acc.reverse]
  | acc, c :: rest =>
    if c == ';' then (acc.reverse ++ [';']) :: splitStmtsAux [] rest
    else splitStmtsAux (c :: acc) rest

/-- First parsed statement: `sqlparse.parse(text)[0]` of app.py line 118. -/
def firstStatementOf (cs : List Char) : List Char :=
  match splitStmtsAux [] cs with
  | s :: _ => s
  | [] => []

/-- `str(sqlparse.parse(sql_text.strip())[0])` of app.py line 118. -/
def normalizeStmt (t : String) : String := ⟨firstStatementOf (stripList t.data)⟩

/-- The placeholder literal of app.py line 112. -/
def placeholderLit : String := "'your_database_name'"

/-- Python `str.replace`: replace every non-overlapping occurrence of
`pat`, scanning left to right and resuming after each replacement.
Each step consumes at least one character (the pattern is nonempty),
so fuel `text.length` suffices. -/
def replaceAllAux (pat rep : List Char) : Nat → List Char → List Char
  | 0, cs => cs
  | fuel + 1, cs =>
    if pat.isPrefixOf cs then rep ++ replaceAllAux pat rep fuel (cs.drop pat.length)
    else
      match cs with
      | [] => []
      | c :: rest => c :: replaceAllAux pat rep fuel rest

/-- Python `s.replace(pat, rep)` lifted to `String`. -/
def pyReplace (s pat rep : String) : String :=
  ⟨replaceAllAux pat.data rep.data s.data.length s.data⟩

/-- The evolving text of `generate_sql` after app.py lines 103-113:
fence stripping, boundary detection, placeholder substitution and
table-name qualification, in source order. -/
def sanitizeText (raw db : String) : String :=
  qualify_table_names
    (pyReplace (statementBoundary (stripFences raw)) placeholderLit ("'" ++ db ++ "'")) db

/-- The restricted-namespace error message of app.py line 116. -/
def restrictedMsg : String := "Queries to `information_schema` are not supported in Databricks."

/-- The sanitization pipeline of `generate_sql` (app.py lines 103-118),
applied to the raw generation-service text: the restricted-namespace
check on the lowercased sanitized text, then normalization; a raised
`ValueError` is modelled as `Except.error`. -/
def generate_sql (raw db : String) : Except String String :=
  if containsSub "information_schema".data (lowerList (sanitizeText raw db).data) then
    Except.error restrictedMsg
  else
    Except.ok (normalizeStmt (sanitizeText raw db))

/-- Raw column record of the persisted snapshot (schema.py lines 19-23).
The source field `type` is a Lean keyword and is rendered `colType`. -/
structure RawColumn where
  column_name : String
  colType : String
deriving DecidableEq

/-- Raw table/view record of the persisted snapshot. -/
structure RawEntity where
  name : String
  columns : List RawColumn
deriving DecidableEq

/-- Raw per-database record of the persisted snapshot
(`{database, tables, views}`, schema.py lines 63-67). -/
structure RawDb where
  database : String
  tables : List RawEntity
  views : List RawEntity
deriving DecidableEq

/-- column name -> type string. -/
abbrev ColMap := List (String × String)

/-- table-or-view name -> columns. -/
abbrev EntityMap := List (String × ColMap)

/-- database name -> tables/views. -/
abbrev SchemaCache := List (String × EntityMap)

/-- Lookup with Python-dict semantics: the last binding of a key wins
(dict comprehensions and `{**a, **b}` merges let later entries
override earlier ones). -/
def pyLookup {β : Type} (m : List (String × β)) (k : String) : Option β :=
  (m.reverse.find? fun p => p.1 == k).map (·.2)

/-- The dict comprehension of app.py lines 37-50: per database, merge
the table dict and the view dict (views later, so they override). -/
def buildCache (raw : List RawDb) : SchemaCache :=
  raw.map fun d =>
    (d.database,
     (d.tables ++ d.views).map fun e =>
       (e.name, e.columns.map fun c => (c.column_name, c.colType)))

/-- `load_current_schema` of app.py lines 33-53: the outcome of reading
and JSON-parsing the snapshot file is the input; any read or parse
failure (the `except` branch) yields the empty mapping. -/
def load_current_schema (readResult : Except String (List RawDb)) : SchemaCache :=
  match readResult with
  | Except.error _ => []
  | Except.ok raw => buildCache raw

/-- A result row (cell values rendered as strings; the claims only
inspect row-set emptiness). -/
abbrev Row := List String

/-- The JSON payload of a successful `/analyze` response (app.py lines 265-270). -/
structure AnalyzePayload where
  sql : String
  columns : List String
  rows : List Row
  insight : String
deriving DecidableEq

/-- Outcome of one `/analyze` request plus the external calls it made. -/
structure AnalyzeResult where
  response : Except (Nat × String) AnalyzePayload
  warehouseCalled : Bool
  insightCalled : Bool

/-- The fixed no-data message of app.py line 263. -/
def noDataMsg : String := "No data found for this query."

/-- The `/analyze` route (app.py lines 247-274) after request parsing:
missing-input check, unknown-database check, SQL generation (a raised
error is caught at the route boundary and becomes a 500 response),
warehouse execution (modelled as the successful call `wh`), then the
insight step, which is skipped in favor of the fixed message when the
row set is empty.  The booleans record whether the warehouse and the
second generation-service call were issued. -/
def analyzeCore (schemas : SchemaCache) (prompt dbName raw : String)
    (wh : String → List Row × List String) (insightText : String) : AnalyzeResult :=
  if prompt = "" ∨ dbName = "" then
    ⟨Except.error (400, "Missing prompt or database"), false, false⟩
  else if (pyLookup schemas dbName).isNone then
    ⟨Except.error (400, "Unknown database: " ++ dbName), false, false⟩
  else
    match generate_sql raw dbName with
    | Except.error e => ⟨Except.error (500, e), false, false⟩
    | Except.ok q =>
      if (wh q).1.isEmpty then ⟨Except.ok ⟨q, (wh q).2, (wh q).1, noDataMsg⟩, true, false⟩
      else ⟨Except.ok ⟨q, (wh q).2, (wh q).1, insightText⟩, true, true⟩

/-- Fault environment for one `query_databricks` execution: which of
the warehouse operations raise, and the result data on success. -/
structure WhEnv where
  connectFails : Bool
  cursorFails : Bool
  useFails : Bool
  execFails : Bool
  fetchFails : Bool
  cursorCloseFails : Bool
  rows : List Row
  cols : List String

/-- Final outcome of `query_databricks`: the returned or raised value,
and whether the connection and the cursor are still open on exit. -/
structure WhOutcome where
  result : Except String (List Row × List String)
  connOpen : Bool
  cursorOpen : Bool

/-- `query_databricks` of app.py lines 123-139, traced operation by
operation.  `sql.connect` and `connection.cursor()` run before the
`try:`; the `finally:` block closes the cursor and then the connection,
and covers only the `try` body. -/
def query_databricks (env : WhEnv) (dbName : Option String) : WhOutcome :=
  if env.connectFails then ⟨Except.error "connect failed", false, false⟩
  else if env.cursorFails then ⟨Except.error "cursor failed", true, false⟩
  else
    let body : Except String (List Row × List String) :=
      if dbName.isSome && env.useFails then Except.error "use failed"
      else if env.execFails then Except.error "execute failed"
      else if env.fetchFails then Except.error "fetch failed"
      else Except.ok (env.rows, env.cols)
    if env.cursorCloseFails then ⟨Except.error "cursor close failed", true, false⟩
    else ⟨body, false, false⟩

/-- Server state shared between routes: the persisted snapshot file and
the in-memory schema cache (the module-level `schemas` of app.py line 55). -/
structure ServerState where
  snapshotFile : List RawDb
  schemas : SchemaCache

/-- What `schema.py` writes to `all_databases_schema.json` on success:
a one-element array holding only the requested database's schema
(schema.py lines 63-72). -/
def schemaScriptSnapshot (dbName : String) (tables views : List RawEntity) : List RawDb :=
  [⟨dbName, tables, views⟩]

/-- The `/load_schema` route (app.py lines 219-243): reject a missing
database name; otherwise clear the snapshot file, run `schema.py` for
the requested database (writing its one-element snapshot), and reload
the in-memory cache from the file.  On a script failure the file stays
cleared and the cache is not reloaded. -/
def load_schema_route (st : ServerState) (dbName : String) (scriptOk : Bool)
    (tables views : List RawEntity) : ServerState × Except (Nat × String) String :=
  if dbName = "" then (st, Except.error (400, "Missing database name"))
  else if scriptOk then
    let file2 := schemaScriptSnapshot dbName tables views
    (⟨file2, load_current_schema (Except.ok file2)⟩,
     Except.ok ("Schema for `" ++ dbName ++ "` loaded successfully."))
  else (⟨[], st.schemas⟩, Except.error (500, "Failed to load schema"))

example : qualify_table_names "SELECT * FROM orders" "sales_db" = "SELECT * FROM sales_db.orders" := by decide
example : qualify_table_names "SELECT * FROM sales_db.orders" "sales_db" = "SELECT * FROM sales_db.sales_db.orders" := by decide
example : qualify_table_names "a JOIN b ON x" "d" = "a JOIN d.b ON x" := by decide
example : qualify_table_names "SHOW DATABASES" "d" = "SHOW DATABASES" := by decide
example : stripFences "```sql\nSELECT 1\n```" = "SELECT 1" := by decide
example : stripFences "```\nfoo\n```" = "```\nfoo" := by decide
example : statementBoundary "junk\nselect 1" = "select 1" := by decide
example : statementBoundary "no match at all" = "no match at all" := by decide
example : statementBoundary "x\nusers are here" = "users are here" := by decide
example : generate_sql "```sql\nSELECT SUM(amount) FROM orders\n```" "sales_db" =
    Except.ok "SELECT SUM(amount) FROM sales_db.orders" := rfl
example : generate_sql "SELECT 1 FROM information_schema.tables" "d" =
    Except.error restrictedMsg := rfl
example : normalizeStmt "SELECT 1; DROP TABLE users" = "SELECT 1;" := by decide

/-! ### Helper lemmas -/

lemma stripList_eq_self (l : List Char) (h1 : isPySpace (l.headD ';') = false)
    (h2 : isPySpace (l.getLastD ';') = false) : stripList l = l := by
  have d1 : l.dropWhile isPySpace = l := by
    cases l with
    | nil => rfl
    | cons c t => simp_all [List.dropWhile_cons]
  have d2 : l.reverse.dropWhile isPySpace = l.reverse := by
    cases hr : l.reverse with
    | nil => rfl
    | cons c t =>
      have hc : l.getLast? = some c := by rw [← List.head?_reverse, hr]; rfl
      have hcs : isPySpace c = false := by
        rwa [List.getLastD_eq_getLast?, hc, Option.getD_some] at h2
      simp [List.dropWhile_cons, hcs]
  unfold stripList
  rw [d1, d2, List.reverse_reverse]

lemma findFirst_eq_none {α : Type} {p : α → Bool} {l : List α}
    (h : ∀ x ∈ l, p x = false) : findFirst p l = none := by
  induction l with
  | nil => rfl
  | cons x xs ih =>
    have hx : p x = false := h x (by simp)
    have ht : findFirst p xs = none := ih fun y hy => h y (by simp [hy])
    simp [findFirst, hx, ht]

lemma findFirst_eq_some {α : Type} {p : α → Bool} {d : α} {l : List α} {i : Nat}
    (hi : i < l.length) (hp : p (l.getD i d) = true)
    (hmin : ∀ j, j < i → p (l.getD j d) = false) : findFirst p l = some i := by
  induction l generalizing i with
  | nil => simp at hi
  | cons x xs ih =>
    cases i with
    | zero =>
      simp only [List.getD_cons_zero] at hp
      simp [findFirst, hp]
    | succ i =>
      have hx : p x = false := by
        have := hmin 0 (Nat.succ_pos i)
        simpa using this
      have ht : findFirst p xs = some i := by
        refine ih (by simpa using hi) (by simpa using hp) fun j hj => ?_
        have := hmin (j + 1) (by omega)
        simpa using this
      simp [findFirst, hx, ht]

lemma splitNl_of_not_mem {a : List Char} (h : '\n' ∉ a) : splitNl a = [a] := by
  induction a with
  | nil => rfl
  | cons c t ih =>
    have hc : (c == '\n') = false := by
      simp only [beq_eq_false_iff_ne]
      intro e
      exact h (by simp [e])
    have ht : splitNl t = [t] := ih fun m => h (List.mem_cons_of_mem c m)
    simp [splitNl, hc, ht]

lemma splitNl_append {a b : List Char} (ha : '\n' ∉ a) :
    splitNl (a ++ '\n' :: b) = a :: splitNl b := by
  induction a with
  | nil => simp [splitNl]
  | cons c t ih =>
    have hc : (c == '\n') = false := by
      simp only [beq_eq_false_iff_ne]
      intro e
      exact ha (by simp [e])
    have ht := ih fun m => ha (List.mem_cons_of_mem c m)
    simp [splitNl, hc, ht]

lemma splitStmtsAux_append {b : List Char} {a acc : List Char} (h : ';' ∉ a) :
    splitStmtsAux acc (a ++ ';' :: b) =
      (acc.reverse ++ a ++ [';']) :: splitStmtsAux [] b := by
  induction a generalizing acc with
  | nil => simp [splitStmtsAux]
  | cons c t ih =>
    have hc : (c == ';') = false := by
      simp only [beq_eq_false_iff_ne]
      intro e
      exact h (by simp [e])
    have ht := @ih (c :: acc) fun m => h (List.mem_cons_of_mem c m)
    simp only [List.cons_append, splitStmtsAux, hc, Bool.false_eq_true, if_false,
      List.append_eq]
    rw [ht]
    simp [List.append_assoc]

/-! ### Fence-stripping lemmas for C4 -/

lemma sqlFenceAt_cons_none {c : Char} (cs : List Char) (h : (c == bt) = false) :
    sqlFenceAt (c :: cs) = none := by
  simp [sqlFenceAt, startsWithPreds, sqlFencePreds, h]

lemma sqlFenceAt_drop_none_of_not_mem :
    ∀ (l : List Char), bt ∉ l → ∀ n, sqlFenceAt (l.drop n) = none := by
  intro l
  induction l with
  | nil =>
    intro _ n
    rw [List.drop_nil]
    decide
  | cons c t ih =>
    intro h n
    cases n with
    | zero =>
      rw [List.drop_zero]
      refine sqlFenceAt_cons_none t ?_
      simp only [beq_eq_false_iff_ne]
      intro e
      exact h (by simp [e])
    | succ n =>
      rw [List.drop_succ_cons]
      exact ih (fun m => h (List.mem_cons_of_mem c m)) n

lemma sqlFenceAt_drop_none_tail :
    ∀ (l : List Char), bt ∉ l →
      ∀ n, sqlFenceAt ((l ++ ['\n', bt, bt, bt]).drop n) = none := by
  intro l
  induction l with
  | nil =>
    intro _ n
    rcases n with _ | _ | _ | _ | n
    · decide
    · decide
    · decide
    · decide
    · simp only [List.nil_append, List.drop_succ_cons, List.drop_nil]
      decide
  | cons c t ih =>
    intro h n
    cases n with
    | zero =>
      rw [List.drop_zero]
      refine sqlFenceAt_cons_none _ ?_
      simp only [beq_eq_false_iff_ne]
      intro e
      exact h (by simp [e])
    | succ n =>
      rw [List.cons_append, List.drop_succ_cons]
      exact ih (fun m => h (List.mem_cons_of_mem c m)) n

lemma stripSqlFenceAux_id :
    ∀ (fuel : Nat) (cs : List Char), (∀ n, sqlFenceAt (cs.drop n) = none) →
      stripSqlFenceAux fuel cs = cs := by
  intro fuel
  induction fuel with
  | zero => intro cs _; rfl
  | succ fuel ih =>
    intro cs h
    have h0 : sqlFenceAt cs = none := by simpa using h 0
    cases cs with
    | nil => simp [stripSqlFenceAux, h0]
    | cons c rest =>
      have hrest : ∀ n, sqlFenceAt (rest.drop n) = none := fun n => by
        have := h (n + 1)
        simpa [List.drop_succ_cons] using this
      simp [stripSqlFenceAux, h0, ih rest hrest]

lemma sqlFenceAt_drop_none_ticks : ∀ n, sqlFenceAt (List.drop n [bt, bt, bt]) = none := by
  intro n
  rcases n with _ | _ | _ | n
  · decide
  · decide
  · decide
  · rw [List.drop_succ_cons, List.drop_succ_cons, List.drop_succ_cons, List.drop_nil]
    decide

lemma fence_strip1 {s q l : Char} (hs : s.toLower = 's') (hq : q.toLower = 'q')
    (hl : l.toLower = 'l') {B : List Char} (hmem : bt ∉ B) (fuel : Nat) :
    stripSqlFenceAux (fuel + 1) ([bt, bt, bt, s, q, l, '\n'] ++ B ++ ['\n', bt, bt, bt]) =
      if (B.dropWhile isPySpace).isEmpty then [bt, bt, bt]
      else B.dropWhile isPySpace ++ ['\n', bt, bt, bt] := by
  have h6 : startsWithPreds sqlFencePreds
      ([bt, bt, bt, s, q, l, '\n'] ++ B ++ ['\n', bt, bt, bt]) = true := by
    show startsWithPreds sqlFencePreds
      (bt :: bt :: bt :: s :: q :: l :: '\n' :: (B ++ ['\n', bt, bt, bt])) = true
    simp [startsWithPreds, sqlFencePreds, isLowerOf, hs, hq, hl]
  have hstep : sqlFenceAt ([bt, bt, bt, s, q, l, '\n'] ++ B ++ ['\n', bt, bt, bt]) =
      some ((B ++ ['\n', bt, bt, bt]).dropWhile isPySpace) := by
    rw [sqlFenceAt, if_pos h6,
      show (([bt, bt, bt, s, q, l, '\n'] ++ B ++ ['\n', bt, bt, bt]).drop 6) =
        '\n' :: (B ++ ['\n', bt, bt, bt]) from rfl,
      List.dropWhile_cons, if_pos (by decide : isPySpace '\n' = true)]
  have hone : stripSqlFenceAux (fuel + 1)
      ([bt, bt, bt, s, q, l, '\n'] ++ B ++ ['\n', bt, bt, bt]) =
      stripSqlFenceAux fuel ((B ++ ['\n', bt, bt, bt]).dropWhile isPySpace) := by
    simp only [stripSqlFenceAux, hstep]
  rw [hone, List.dropWhile_append]
  cases hBd : (B.dropWhile isPySpace).isEmpty with
  | true =>
    simp only [hBd, if_true]
    rw [show List.dropWhile isPySpace ['\n', bt, bt, bt] = [bt, bt, bt] from by decide]
    exact stripSqlFenceAux_id fuel _ sqlFenceAt_drop_none_ticks
  | false =>
    simp only [hBd, Bool.false_eq_true, if_false]
    refine stripSqlFenceAux_id fuel _ (sqlFenceAt_drop_none_tail _ fun hmema => ?_)
    exact hmem ((List.dropWhile_sublist isPySpace).subset hmema)

lemma stripTrailingFence_fence (u : List Char) :
    stripTrailingFence (u ++ ['\n', bt, bt, bt]) = (u.reverse.dropWhile isPySpace).reverse := by
  have hrev : (u ++ ['\n', bt, bt, bt]).reverse = bt :: bt :: bt :: '\n' :: u.reverse := by
    simp
  have hbtnl : (bt == '\n') = false := by decide
  have hcore : stfCore (bt :: bt :: bt :: '\n' :: u.reverse) =
      some (List.dropWhile isPySpace ('\n' :: u.reverse)) := rfl
  unfold stripTrailingFence
  rw [hrev]
  simp only [hbtnl, Bool.false_eq_true, if_false, hcore]
  rw [List.dropWhile_cons, if_pos (by decide : isPySpace '\n' = true)]

lemma stripFences_fenced (body : String) {s q l : Char}
    (hs : s.toLower = 's') (hq : q.toLower = 'q') (hl : l.toLower = 'l')
    (hmem : bt ∉ body.data) :
    stripFences ⟨[bt, bt, bt, s, q, l, '\n'] ++ body.data ++ ['\n', bt, bt, bt]⟩ =
      ⟨stripList body.data⟩ := by
  show (⟨stripTrailingFence (stripSqlFenceAux
      ([bt, bt, bt, s, q, l, '\n'] ++ body.data ++ ['\n', bt, bt, bt]).length
      ([bt, bt, bt, s, q, l, '\n'] ++ body.data ++ ['\n', bt, bt, bt]))⟩ : String) =
    ⟨stripList body.data⟩
  have hlen : ([bt, bt, bt, s, q, l, '\n'] ++ body.data ++ ['\n', bt, bt, bt]).length =
      (body.data.length + 10) + 1 := by
    simp [List.length_append]
  rw [hlen, fence_strip1 hs hq hl hmem]
  cases hBd : (body.data.dropWhile isPySpace).isEmpty with
  | true =>
    simp only [hBd, if_true]
    have h1 : stripTrailingFence [bt, bt, bt] = [] := by decide
    have h2 : stripList body.data = [] := by
      unfold stripList
      rw [List.isEmpty_iff.mp hBd]
      rfl
    rw [h1, h2]
  | false =>
    simp only [hBd, Bool.false_eq_true, if_false]
    rw [stripTrailingFence_fence]
    rfl

lemma stripFences_noticks (body : String) (hmem : bt ∉ body.data) :
    stripFences body = body := by
  unfold stripFences
  rw [stripSqlFenceAux_id body.data.length body.data
    (sqlFenceAt_drop_none_of_not_mem body.data hmem)]
  have h2 : stripTrailingFence body.data = body.data := by
    unfold stripTrailingFence
    cases hbr : body.data.reverse with
    | nil => rfl
    | cons c r1 =>
      have hcmem : c ∈ body.data := by
        rw [← List.mem_reverse, hbr]
        exact List.mem_cons_self c r1
      have hcbt : (c == bt) = false := by
        simp only [beq_eq_false_iff_ne]
        intro e
        exact hmem (e ▸ hcmem)
      cases hcnl : (c == '\n') with
      | true =>
        have hr1 : stfCore r1 = none := by
          cases r1 with
          | nil => rfl
          | cons d r2 =>
            have hdmem : d ∈ body.data := by
              rw [← List.mem_reverse, hbr]
              simp
            have hdbt : (d == bt) = false := by
              simp only [beq_eq_false_iff_ne]
              intro e
              exact hmem (e ▸ hdmem)
            simp [stfCore, hdbt]
        simp [hcnl, hr1]
      | false =>
        have hcore : stfCore (c :: r1) = none := by
          simp [stfCore, hcbt]
        simp [hcnl, hcore]
  rw [h2]

/-! ### Whitespace lemmas

The fence-stripping substitutions of app.py lines 103-104 swallow
whitespace adjacent to the fences, while the unwrapped text keeps it
until the `strip()` of app.py line 118; the lemmas of this section show
that every stage of the pipeline is invariant under such leading and
trailing whitespace, which is what makes fence wrapping transparent. -/

lemma pyspace_toLower {c : Char} (h : isPySpace c = true) : c.toLower = c := by
  simp only [isPySpace, Bool.or_eq_true, beq_iff_eq] at h
  rcases h with ((((rfl | rfl) | rfl) | rfl) | rfl) | rfl <;> decide

lemma ws_not_word {c : Char} (h : isPySpace c = true) : isWordChar c = false := by
  simp only [isPySpace, Bool.or_eq_true, beq_iff_eq] at h
  rcases h with ((((rfl | rfl) | rfl) | rfl) | rfl) | rfl <;> decide

lemma isLowerOf_ws_false {c t : Char} (hc : isPySpace c = true) (ht : isPySpace t = false) :
    isLowerOf t c = false := by
  unfold isLowerOf
  rw [pyspace_toLower hc]
  simp only [beq_eq_false_iff_ne]
  intro e
  subst e
  simp [hc] at ht

lemma lowerList_of_ws {a : List Char} (h : ∀ c ∈ a, isPySpace c = true) :
    lowerList a = a := by
  induction a with
  | nil => rfl
  | cons c t ih =>
    have hc := pyspace_toLower (h c (by simp))
    have ht := ih fun x hx => h x (by simp [hx])
    show (c :: t).map Char.toLower = c :: t
    rw [List.map_cons, hc]
    exact congrArg (List.cons c) ht

lemma dropWhile_ne_nil_head {α : Type} {p : α → Bool} :
    ∀ {l : List α} {c : α} {r : List α}, l.dropWhile p = c :: r → p c = false := by
  intro l
  induction l with
  | nil => intro c r h; simp [List.dropWhile] at h
  | cons x xs ih =>
    intro c r h
    rw [List.dropWhile_cons] at h
    by_cases hx : p x = true
    · rw [if_pos hx] at h
      exact ih h
    · rw [if_neg hx] at h
      injection h with h1 _
      subst h1
      simpa using hx

lemma dropWhile_append_ne_nil {α : Type} {p : α → Bool} {a b : List α}
    (h : a.dropWhile p ≠ []) : (a ++ b).dropWhile p = a.dropWhile p ++ b := by
  rw [List.dropWhile_append, if_neg (by simpa [List.isEmpty_iff] using h)]

lemma takeWhile_append_ne_nil {α : Type} {p : α → Bool} {a b : List α}
    (h : a.dropWhile p ≠ []) : (a ++ b).takeWhile p = a.takeWhile p := by
  rw [List.takeWhile_append, if_neg ?_]
  intro he
  apply h
  have hlen := congrArg List.length (List.takeWhile_append_dropWhile p a)
  simp only [List.length_append, he] at hlen
  exact List.eq_nil_of_length_eq_zero (by omega)

lemma stripList_ws_left {a u : List Char} (h : ∀ c ∈ a, isPySpace c = true) :
    stripList (a ++ u) = stripList u := by
  unfold stripList
  rw [List.dropWhile_append_of_pos h]

lemma stripList_ws_right {u b : List Char} (h : ∀ c ∈ b, isPySpace c = true) :
    stripList (u ++ b) = stripList u := by
  unfold stripList
  by_cases hu : u.dropWhile isPySpace = []
  · rw [List.dropWhile_append, if_pos (by simp [List.isEmpty_iff, hu]), hu,
      List.dropWhile_eq_nil_iff.mpr h]
  · rw [dropWhile_append_ne_nil hu, List.reverse_append,
      List.dropWhile_append_of_pos fun c hc => h c (List.mem_reverse.mp hc)]

lemma stripList_absorb {a u b : List Char} (ha : ∀ c ∈ a, isPySpace c = true)
    (hb : ∀ c ∈ b, isPySpace c = true) : stripList (a ++ u ++ b) = stripList u := by
  rw [List.append_assoc, stripList_ws_left ha, stripList_ws_right hb]

lemma strip_decomp (l : List Char) :
    l.takeWhile isPySpace ++ stripList l ++
      ((l.dropWhile isPySpace).reverse.takeWhile isPySpace).reverse = l := by
  have h1 : ((l.dropWhile isPySpace).reverse.dropWhile isPySpace).reverse ++
      ((l.dropWhile isPySpace).reverse.takeWhile isPySpace).reverse =
      l.dropWhile isPySpace := by
    rw [← List.reverse_append, List.takeWhile_append_dropWhile, List.reverse_reverse]
  rw [List.append_assoc]
  unfold stripList
  rw [h1, List.takeWhile_append_dropWhile]

lemma stripList_idem (l : List Char) : stripList (stripList l) = stripList l := by
  conv_rhs => rw [← strip_decomp l]
  rw [stripList_absorb (fun c hc => List.mem_takeWhile_imp hc)
    (fun c hc => List.mem_takeWhile_imp (List.mem_reverse.mp hc))]

lemma isPrefixOf_ws_head_false {pat : List Char} {w : Char} {r : List Char}
    (hne : pat ≠ []) (hp : ∀ c ∈ pat, isPySpace c = false) (hw : isPySpace w = true) :
    pat.isPrefixOf (w :: r) = false := by
  cases pat with
  | nil => exact absurd rfl hne
  | cons p pr =>
    show (p == w && pr.isPrefixOf r) = false
    have hpw : (p == w) = false := by
      simp only [beq_eq_false_iff_ne]
      intro e
      have h1 := hp p (by simp)
      rw [e, hw] at h1
      simp at h1
    rw [hpw, Bool.false_and]

lemma isPrefixOf_append_ws {pat b : List Char} (hp : ∀ c ∈ pat, isPySpace c = false)
    (hb : ∀ c ∈ b, isPySpace c = true) :
    ∀ x, pat.isPrefixOf (x ++ b) = pat.isPrefixOf x := by
  induction pat with
  | nil => intro x; rw [List.isPrefixOf_nil_left, List.isPrefixOf_nil_left]
  | cons p pr ih =>
    intro x
    cases x with
    | nil =>
      show (p :: pr).isPrefixOf b = false
      cases b with
      | nil => rfl
      | cons w br =>
        exact isPrefixOf_ws_head_false (by simp) hp (hb w (by simp))
    | cons c xr =>
      show (p == c && pr.isPrefixOf (xr ++ b)) = (p == c && pr.isPrefixOf xr)
      rw [ih (fun d hd => hp d (by simp [hd])) xr]

lemma containsSub_ws_all {pat b : List Char} (hne : pat ≠ [])
    (hp : ∀ c ∈ pat, isPySpace c = false) (hb : ∀ c ∈ b, isPySpace c = true) :
    containsSub pat b = false := by
  induction b with
  | nil =>
    cases pat with
    | nil => exact absurd rfl hne
    | cons p pr => rfl
  | cons w br ih =>
    show (pat.isPrefixOf (w :: br) || containsSub pat br) = false
    rw [isPrefixOf_ws_head_false hne hp (hb w (by simp)),
      ih (fun c hc => hb c (by simp [hc])), Bool.or_self]

lemma containsSub_ws_left {pat u : List Char} (hne : pat ≠ [])
    (hp : ∀ c ∈ pat, isPySpace c = false) :
    ∀ (a : List Char), (∀ c ∈ a, isPySpace c = true) →
      containsSub pat (a ++ u) = containsSub pat u := by
  intro a
  induction a with
  | nil => intro _; rfl
  | cons w ar ih =>
    intro ha
    show (pat.isPrefixOf (w :: (ar ++ u)) || containsSub pat (ar ++ u)) = containsSub pat u
    rw [isPrefixOf_ws_head_false hne hp (ha w (by simp)),
      ih (fun c hc => ha c (by simp [hc])), Bool.false_or]

lemma containsSub_ws_right {pat b : List Char} (hne : pat ≠ [])
    (hp : ∀ c ∈ pat, isPySpace c = false) (hb : ∀ c ∈ b, isPySpace c = true) :
    ∀ u, containsSub pat (u ++ b) = containsSub pat u := by
  intro u
  induction u with
  | nil =>
    show containsSub pat b = containsSub pat []
    rw [containsSub_ws_all hne hp hb]
    cases pat with
    | nil => exact absurd rfl hne
    | cons p pr => rfl
  | cons c ur ih =>
    show (pat.isPrefixOf (c :: (ur ++ b)) || containsSub pat (ur ++ b)) =
      (pat.isPrefixOf (c :: ur) || containsSub pat ur)
    rw [show c :: (ur ++ b) = (c :: ur) ++ b from (List.cons_append c ur b).symm,
      isPrefixOf_append_ws hp hb, ih]

lemma replaceAllAux_nil {pat rep : List Char} (hne : pat ≠ []) :
    ∀ fuel, replaceAllAux pat rep fuel [] = [] := by
  intro fuel
  cases fuel with
  | zero => rfl
  | succ f =>
    have h : pat.isPrefixOf ([] : List Char) = false := by
      cases pat with
      | nil => exact absurd rfl hne
      | cons p pr => rfl
    simp [replaceAllAux, h]

lemma replaceAllAux_fuel {pat rep : List Char} (hne : pat ≠ []) :
    ∀ f1 f2 (cs : List Char), cs.length ≤ f1 → cs.length ≤ f2 →
      replaceAllAux pat rep f1 cs = replaceAllAux pat rep f2 cs := by
  intro f1
  induction f1 with
  | zero =>
    intro f2 cs h1 _
    have hcs : cs = [] := List.eq_nil_of_length_eq_zero (by omega)
    subst hcs
    rw [replaceAllAux_nil hne, replaceAllAux_nil hne]
  | succ g ih =>
    intro f2 cs h1 h2
    cases cs with
    | nil => rw [replaceAllAux_nil hne, replaceAllAux_nil hne]
    | cons c cr =>
      cases f2 with
      | zero => simp at h2
      | succ h =>
        have hplen : 1 ≤ pat.length := by
          cases pat with
          | nil => exact absurd rfl hne
          | cons _ _ => simp
        cases hpre : pat.isPrefixOf (c :: cr) with
        | true =>
          simp only [replaceAllAux, hpre, if_true]
          congr 1
          apply ih
          · simp only [List.length_drop, List.length_cons]
            simp only [List.length_cons] at h1
            omega
          · simp only [List.length_drop, List.length_cons]
            simp only [List.length_cons] at h2
            omega
        | false =>
          simp only [replaceAllAux, hpre, Bool.false_eq_true, if_false]
          simp only [List.length_cons] at h1 h2
          exact congrArg (List.cons c) (ih h cr (by omega) (by omega))

lemma replaceAllAux_ws {pat rep : List Char} (hne : pat ≠ [])
    (hp : ∀ c ∈ pat, isPySpace c = false) :
    ∀ (wsl : List Char), (∀ c ∈ wsl, isPySpace c = true) →
      ∀ fuel, replaceAllAux pat rep fuel wsl = wsl := by
  intro wsl
  induction wsl with
  | nil => intro _; exact replaceAllAux_nil hne
  | cons w wr ih =>
    intro hw fuel
    cases fuel with
    | zero => rfl
    | succ f =>
      have hpre : pat.isPrefixOf (w :: wr) = false :=
        isPrefixOf_ws_head_false hne hp (hw w (by simp))
      simp only [replaceAllAux, hpre, Bool.false_eq_true, if_false]
      exact congrArg (List.cons w) (ih (fun c hc => hw c (by simp [hc])) f)

lemma replaceAllAux_ws_prefix {pat rep : List Char} (hne : pat ≠ [])
    (hp : ∀ c ∈ pat, isPySpace c = false) :
    ∀ (wsl : List Char), (∀ c ∈ wsl, isPySpace c = true) →
      ∀ fuel rest, (wsl ++ rest).length ≤ fuel →
      replaceAllAux pat rep fuel (wsl ++ rest) =
        wsl ++ replaceAllAux pat rep rest.length rest := by
  intro wsl
  induction wsl with
  | nil =>
    intro _ fuel rest hf
    simpa using replaceAllAux_fuel hne fuel rest.length rest (by simpa using hf) le_rfl
  | cons w wr ih =>
    intro hw fuel rest hf
    cases fuel with
    | zero => simp at hf
    | succ f =>
      have hpre : pat.isPrefixOf (w :: (wr ++ rest)) = false :=
        isPrefixOf_ws_head_false hne hp (hw w (by simp))
      simp only [List.cons_append, replaceAllAux, hpre, Bool.false_eq_true, if_false]
      rw [ih (fun c hc => hw c (by simp [hc])) f rest ?_]
      simp only [List.cons_append, List.length_cons] at hf
      omega

lemma replaceAllAux_ws_suffix {pat rep b : List Char} (hne : pat ≠ [])
    (hp : ∀ c ∈ pat, isPySpace c = false) (hb : ∀ c ∈ b, isPySpace c = true) :
    ∀ fuel (x : List Char), (x ++ b).length ≤ fuel →
      replaceAllAux pat rep fuel (x ++ b) = replaceAllAux pat rep x.length x ++ b := by
  intro fuel
  induction fuel with
  | zero =>
    intro x hf
    simp only [List.length_append] at hf
    have hx : x = [] := List.eq_nil_of_length_eq_zero (by omega)
    have hb0 : b = [] := List.eq_nil_of_length_eq_zero (by omega)
    subst hx
    subst hb0
    rfl
  | succ f ih =>
    intro x hf
    have hplen : 1 ≤ pat.length := by
      cases pat with
      | nil => exact absurd rfl hne
      | cons _ _ => simp
    cases x with
    | nil =>
      simp only [List.nil_append]
      rw [replaceAllAux_ws hne hp b hb]
      rfl
    | cons c xr =>
      have hpre : pat.isPrefixOf ((c :: xr) ++ b) = pat.isPrefixOf (c :: xr) :=
        isPrefixOf_append_ws hp hb (c :: xr)
      cases hp1 : pat.isPrefixOf (c :: xr) with
      | true =>
        have hplen2 : pat.length ≤ (c :: xr).length :=
          (List.isPrefixOf_iff_prefix.mp hp1).length_le
        have e1 : replaceAllAux pat rep (f + 1) ((c :: xr) ++ b) =
            rep ++ replaceAllAux pat rep f (((c :: xr) ++ b).drop pat.length) := by
          simp only [replaceAllAux, hpre, hp1, if_true]
        rw [e1, List.drop_append_of_le_length hplen2]
        rw [ih ((c :: xr).drop pat.length) ?_]
        · have e2 : replaceAllAux pat rep (c :: xr).length (c :: xr) =
              rep ++ replaceAllAux pat rep xr.length ((c :: xr).drop pat.length) := by
            show replaceAllAux pat rep (xr.length + 1) (c :: xr) = _
            simp only [replaceAllAux, hp1, if_true]
          rw [e2, replaceAllAux_fuel hne ((c :: xr).drop pat.length).length xr.length
            ((c :: xr).drop pat.length) le_rfl ?_, List.append_assoc]
          simp only [List.length_drop, List.length_cons]
          omega
        · simp only [List.length_append, List.length_drop, List.length_cons] at hf ⊢
          omega
      | false =>
        have e1 : replaceAllAux pat rep (f + 1) ((c :: xr) ++ b) =
            c :: replaceAllAux pat rep f (xr ++ b) := by
          have hpre2 : pat.isPrefixOf (c :: (xr ++ b)) = false := by
            rw [← List.cons_append]
            exact hpre.trans hp1
          simp only [replaceAllAux, List.cons_append, hpre2, Bool.false_eq_true, if_false]
        rw [e1, ih xr ?_]
        · have e2 : replaceAllAux pat rep (c :: xr).length (c :: xr) =
              c :: replaceAllAux pat rep xr.length xr := by
            show replaceAllAux pat rep (xr.length + 1) (c :: xr) = _
            simp only [replaceAllAux, hp1, Bool.false_eq_true, if_false]
          rw [e2, List.cons_append]
        · simp only [List.length_append, List.length_cons] at hf ⊢
          omega

lemma takeWhile_all {α : Type} {p : α → Bool} {l : List α} (h : ∀ c ∈ l, p c = true) :
    l.takeWhile p = l := by
  have h2 := List.takeWhile_append_dropWhile p l
  rw [List.dropWhile_eq_nil_iff.mpr h, List.append_nil] at h2
  exact h2

lemma takeWhile_word_ws_nil {b : List Char} (hb : ∀ c ∈ b, isPySpace c = true) :
    b.takeWhile isWordChar = [] := by
  cases b with
  | nil => rfl
  | cons w br => simp [List.takeWhile_cons, ws_not_word (hb w (by simp))]

lemma dropWhile_word_ws_self {b : List Char} (hb : ∀ c ∈ b, isPySpace c = true) :
    b.dropWhile isWordChar = b := by
  cases b with
  | nil => rfl
  | cons w br => simp [List.dropWhile_cons, ws_not_word (hb w (by simp))]

lemma swp_true_length {ps : List (Char → Bool)} :
    ∀ {x : List Char}, startsWithPreds ps x = true → ps.length ≤ x.length := by
  induction ps with
  | nil => intro x _; simp
  | cons p pr ih =>
    intro x h
    cases x with
    | nil => simp [startsWithPreds] at h
    | cons c xr =>
      simp only [startsWithPreds, Bool.and_eq_true] at h
      have := ih h.2
      simp only [List.length_cons]
      omega

lemma swp_append_true {ps : List (Char → Bool)} {b : List Char} :
    ∀ {x}, startsWithPreds ps x = true → startsWithPreds ps (x ++ b) = true := by
  induction ps with
  | nil => intro x _; rfl
  | cons p pr ih =>
    intro x h
    cases x with
    | nil => simp [startsWithPreds] at h
    | cons c xr =>
      simp only [startsWithPreds, Bool.and_eq_true] at h
      simp only [List.cons_append, startsWithPreds, h.1, Bool.true_and]
      exact ih h.2

lemma swp_append_ws_false {ps : List (Char → Bool)} {b : List Char}
    (hps : ∀ p ∈ ps, ∀ c, isPySpace c = true → p c = false)
    (hb : ∀ c ∈ b, isPySpace c = true) :
    ∀ {x}, startsWithPreds ps x = false → startsWithPreds ps (x ++ b) = false := by
  induction ps with
  | nil => intro x h; simp [startsWithPreds] at h
  | cons p pr ih =>
    intro x h
    cases x with
    | nil =>
      cases b with
      | nil => rfl
      | cons w br =>
        simp only [List.nil_append, startsWithPreds]
        rw [hps p (by simp) w (hb w (by simp)), Bool.false_and]
    | cons c xr =>
      simp only [startsWithPreds] at h
      simp only [List.cons_append, startsWithPreds]
      cases hpc : p c with
      | false => rw [Bool.false_and]
      | true =>
        rw [hpc, Bool.true_and] at h
        rw [Bool.true_and]
        exact ih (fun q hq => hps q (by simp [hq])) h

lemma fromPreds_ws : ∀ p ∈ fromPreds, ∀ c, isPySpace c = true → p c = false := by
  intro p hp c hc
  simp only [fromPreds, List.mem_cons, List.not_mem_nil, or_false] at hp
  rcases hp with rfl | rfl | rfl | rfl <;> exact isLowerOf_ws_false hc (by decide)

lemma joinPreds_ws : ∀ p ∈ joinPreds, ∀ c, isPySpace c = true → p c = false := by
  intro p hp c hc
  simp only [joinPreds, List.mem_cons, List.not_mem_nil, or_false] at hp
  rcases hp with rfl | rfl | rfl | rfl <;> exact isLowerOf_ws_false hc (by decide)

lemma matchKw_ws_none {c : Char} {r : List Char} (hc : isPySpace c = true) :
    matchKw (c :: r) = none := by
  unfold matchKw
  have h1 : startsWithPreds fromPreds (c :: r) = false := by
    simp only [fromPreds, startsWithPreds]
    rw [isLowerOf_ws_false hc (by decide), Bool.false_and]
  have h2 : startsWithPreds joinPreds (c :: r) = false := by
    simp only [joinPreds, startsWithPreds]
    rw [isLowerOf_ws_false hc (by decide), Bool.false_and]
  rw [h1, h2]
  rfl

lemma matchKw_append {b : List Char} (hb : ∀ c ∈ b, isPySpace c = true) (x : List Char) :
    matchKw (x ++ b) =
      match matchKw x with
      | some (kw, r) => some (kw, r ++ b)
      | none => none := by
  unfold matchKw
  cases h1 : startsWithPreds fromPreds x with
  | true =>
    have h1' := @swp_append_true fromPreds b x h1
    have hlen : 4 ≤ x.length := by
      have := swp_true_length h1
      simpa [fromPreds] using this
    simp only [h1, h1', Bool.true_or, if_true]
    rw [List.take_append_of_le_length hlen, List.drop_append_of_le_length hlen]
  | false =>
    have h1' := swp_append_ws_false fromPreds_ws hb h1
    cases h2 : startsWithPreds joinPreds x with
    | true =>
      have h2' := @swp_append_true joinPreds b x h2
      have hlen : 4 ≤ x.length := by
        have := swp_true_length h2
        simpa [joinPreds] using this
      simp only [h1, h1', h2, h2', Bool.false_or, if_true]
      rw [List.take_append_of_le_length hlen, List.drop_append_of_le_length hlen]
    | false =>
      have h2' := swp_append_ws_false joinPreds_ws hb h2
      simp only [h1, h1', h2, h2', Bool.or_self, Bool.false_eq_true, if_false]

lemma tryQualMatch_congr {p1 p2 : Option Char} (h : isBoundaryOk p1 = isBoundaryOk p2)
    (cs : List Char) : tryQualMatch p1 cs = tryQualMatch p2 cs := by
  unfold tryQualMatch
  rw [h]

lemma tryQualMatch_ws_none {prev : Option Char} {c : Char} {r : List Char}
    (hc : isPySpace c = true) : tryQualMatch prev (c :: r) = none := by
  unfold tryQualMatch
  rw [matchKw_ws_none hc]
  cases hbnd : isBoundaryOk prev <;> simp [hbnd]

lemma tryQualMatch_append {b : List Char} (hb : ∀ c ∈ b, isPySpace c = true)
    (prev : Option Char) (t : List Char) :
    tryQualMatch prev (t ++ b) =
      match tryQualMatch prev t with
      | some (kw, w, id, rest) => some (kw, w, id, rest ++ b)
      | none => none := by
  unfold tryQualMatch
  cases hbnd : isBoundaryOk prev with
  | false => simp
  | true =>
    simp only [if_true]
    rw [matchKw_append hb t]
    cases hm : matchKw t with
    | none => simp
    | some kr =>
      obtain ⟨kw, r1⟩ := kr
      simp only []
      by_cases hr2 : r1.dropWhile isPySpace = []
      · have hr1ws : ∀ c ∈ r1, isPySpace c = true := List.dropWhile_eq_nil_iff.mp hr2
        have h1 : (r1 ++ b).takeWhile isPySpace = r1 ++ b := by
          refine takeWhile_all fun c hc => ?_
          rcases List.mem_append.mp hc with h | h
          · exact hr1ws c h
          · exact hb c h
        have h2 : (r1 ++ b).dropWhile isPySpace = [] := by
          refine List.dropWhile_eq_nil_iff.mpr fun c hc => ?_
          rcases List.mem_append.mp hc with h | h
          · exact hr1ws c h
          · exact hb c h
        have h3 : r1.takeWhile isPySpace = r1 := takeWhile_all hr1ws
        rw [h1, h2, h3, hr2]
        cases hre : (r1 ++ b).isEmpty <;> cases hre2 : r1.isEmpty <;> simp
      · have h1 : (r1 ++ b).takeWhile isPySpace = r1.takeWhile isPySpace :=
          takeWhile_append_ne_nil hr2
        have h2 : (r1 ++ b).dropWhile isPySpace = r1.dropWhile isPySpace ++ b :=
          dropWhile_append_ne_nil hr2
        rw [h1, h2]
        cases hwse : (r1.takeWhile isPySpace).isEmpty with
        | true => simp [hwse]
        | false =>
          obtain ⟨i, r3, hir⟩ : ∃ i r3, r1.dropWhile isPySpace = i :: r3 := by
            cases hd : r1.dropWhile isPySpace with
            | nil => exact absurd hd hr2
            | cons i r3 => exact ⟨i, r3, rfl⟩
          rw [hir]
          simp only [List.cons_append, hwse, Bool.false_eq_true, if_false]
          cases hid : isIdentStart i with
          | false => simp [hid]
          | true =>
            simp only [hid, if_true]
            by_cases hr3 : r3.dropWhile isWordChar = []
            · have hall : ∀ c ∈ r3, isWordChar c = true := List.dropWhile_eq_nil_iff.mp hr3
              rw [List.takeWhile_append_of_pos hall, List.dropWhile_append_of_pos hall,
                takeWhile_word_ws_nil hb, dropWhile_word_ws_self hb, List.append_nil,
                hr3, takeWhile_all hall]
              simp
            · rw [takeWhile_append_ne_nil hr3, dropWhile_append_ne_nil hr3]

lemma tryQualMatch_some_length {prev : Option Char} {cs kw w id rest : List Char}
    (h : tryQualMatch prev cs = some (kw, w, id, rest)) : rest.length < cs.length := by
  unfold tryQualMatch at h
  cases hbnd : isBoundaryOk prev with
  | false => rw [hbnd] at h; simp at h
  | true =>
    rw [hbnd] at h
    simp only [if_true] at h
    cases hm : matchKw cs with
    | none => rw [hm] at h; simp at h
    | some kr =>
      obtain ⟨kw0, r1⟩ := kr
      rw [hm] at h
      have hr1 : r1.length + 4 ≤ cs.length := by
        unfold matchKw at hm
        cases hc : (startsWithPreds fromPreds cs || startsWithPreds joinPreds cs) with
        | false => rw [hc] at hm; simp at hm
        | true =>
          rw [hc] at hm
          simp only [if_true, Option.some.injEq, Prod.mk.injEq] at hm
          have h4 : 4 ≤ cs.length := by
            rcases Bool.or_eq_true_iff.mp hc with hx | hx
            · simpa [fromPreds] using swp_true_length hx
            · simpa [joinPreds] using swp_true_length hx
          have := hm.2
          subst this
          simp only [List.length_drop]
          omega
      simp only [] at h
      cases hwse : (r1.takeWhile isPySpace).isEmpty with
      | true => rw [hwse] at h; simp at h
      | false =>
        rw [hwse] at h
        simp only [Bool.false_eq_true, if_false] at h
        cases hd : r1.dropWhile isPySpace with
        | nil => rw [hd] at h; simp at h
        | cons i r3 =>
          rw [hd] at h
          dsimp only at h
          cases hid : isIdentStart i with
          | false => rw [hid] at h; simp at h
          | true =>
            rw [hid] at h
            simp only [if_true, Option.some.injEq, Prod.mk.injEq] at h
            have hrest : rest = r3.dropWhile isWordChar := h.2.2.2.symm
            have l1 : rest.length ≤ r3.length := by
              rw [hrest]
              exact (List.dropWhile_sublist _).length_le
            have l2 : (i :: r3).length ≤ r1.length := by
              rw [← hd]
              exact (List.dropWhile_sublist _).length_le
            simp only [List.length_cons] at l2
            omega

lemma qualifyAux_nil {db : List Char} : ∀ (fuel : Nat) (prev : Option Char),
    qualifyAux db fuel prev [] = [] := by
  intro fuel prev
  cases fuel with
  | zero => rfl
  | succ f =>
    have hm : matchKw ([] : List Char) = none := by decide
    have ht : tryQualMatch prev [] = none := by
      unfold tryQualMatch
      rw [hm]
      cases hbnd : isBoundaryOk prev <;> simp [hbnd]
    simp [qualifyAux, ht]

lemma qualifyAux_prev_congr {db : List Char} {fuel : Nat} {p1 p2 : Option Char}
    {cs : List Char} (h : isBoundaryOk p1 = isBoundaryOk p2) :
    qualifyAux db fuel p1 cs = qualifyAux db fuel p2 cs := by
  cases fuel with
  | zero => rfl
  | succ f => simp only [qualifyAux, tryQualMatch_congr h cs]

lemma qualifyAux_fuel {db : List Char} :
    ∀ (f1 f2 : Nat) (prev : Option Char) (cs : List Char), cs.length ≤ f1 →
      cs.length ≤ f2 → qualifyAux db f1 prev cs = qualifyAux db f2 prev cs := by
  intro f1
  induction f1 with
  | zero =>
    intro f2 prev cs h1 _
    have hcs : cs = [] := List.eq_nil_of_length_eq_zero (by omega)
    subst hcs
    rw [qualifyAux_nil, qualifyAux_nil]
  | succ g ih =>
    intro f2 prev cs h1 h2
    cases cs with
    | nil => rw [qualifyAux_nil, qualifyAux_nil]
    | cons c cr =>
      cases f2 with
      | zero => simp at h2
      | succ h =>
        simp only [List.length_cons] at h1 h2
        cases hm : tryQualMatch prev (c :: cr) with
        | none =>
          simp only [qualifyAux, hm]
          exact congrArg (List.cons c) (ih h (some c) cr (by omega) (by omega))
        | some kr =>
          obtain ⟨kw, w, id, rest⟩ := kr
          have hlt := tryQualMatch_some_length hm
          simp only [List.length_cons] at hlt
          simp only [qualifyAux, hm]
          congr 1
          exact ih h _ rest (by omega) (by omega)

lemma qualifyAux_ws {db : List Char} :
    ∀ (wsl : List Char), (∀ c ∈ wsl, isPySpace c = true) →
      ∀ (fuel : Nat) (prev : Option Char), qualifyAux db fuel prev wsl = wsl := by
  intro wsl
  induction wsl with
  | nil => intro _ fuel prev; exact qualifyAux_nil fuel prev
  | cons w wr ih =>
    intro hw fuel prev
    cases fuel with
    | zero => rfl
    | succ f =>
      have ht := @tryQualMatch_ws_none prev w wr (hw w (by simp))
      simp only [qualifyAux, ht]
      exact congrArg (List.cons w) (ih (fun c hc => hw c (by simp [hc])) f (some w))

lemma qualifyAux_ws_prefix {db : List Char} :
    ∀ (wsl : List Char), (∀ c ∈ wsl, isPySpace c = true) →
      ∀ (fuel : Nat) (prev : Option Char) (rest : List Char), isBoundaryOk prev = true →
      (wsl ++ rest).length ≤ fuel →
      qualifyAux db fuel prev (wsl ++ rest) = wsl ++ qualifyAux db rest.length none rest := by
  intro wsl
  induction wsl with
  | nil =>
    intro _ fuel prev rest hbnd hf
    simp only [List.nil_append] at hf ⊢
    rw [@qualifyAux_prev_congr db fuel prev none rest (by rw [hbnd]; rfl)]
    exact qualifyAux_fuel fuel rest.length none rest hf le_rfl
  | cons w wr ih =>
    intro hw fuel prev rest hbnd hf
    cases fuel with
    | zero => simp at hf
    | succ f =>
      have ht := @tryQualMatch_ws_none prev w (wr ++ rest) (hw w (by simp))
      simp only [List.cons_append, qualifyAux, ht]
      rw [ih (fun c hc => hw c (by simp [hc])) f (some w) rest ?_ ?_]
      · simp [isBoundaryOk, ws_not_word (hw w (by simp))]
      · simp only [List.cons_append, List.length_cons, List.length_append] at hf
        simp only [List.length_append]
        omega

lemma qualifyAux_ws_suffix {db b : List Char} (hb : ∀ c ∈ b, isPySpace c = true) :
    ∀ (fuel : Nat) (t : List Char) (prev : Option Char), (t ++ b).length ≤ fuel →
      qualifyAux db fuel prev (t ++ b) = qualifyAux db t.length prev t ++ b := by
  intro fuel
  induction fuel with
  | zero =>
    intro t prev hf
    simp only [List.length_append] at hf
    have ht : t = [] := List.eq_nil_of_length_eq_zero (by omega)
    have hb0 : b = [] := List.eq_nil_of_length_eq_zero (by omega)
    subst ht
    subst hb0
    rfl
  | succ f ih =>
    intro t prev hf
    cases t with
    | nil =>
      simp only [List.nil_append]
      rw [qualifyAux_ws b hb (f + 1) prev]
      rfl
    | cons c tr =>
      have hqt := tryQualMatch_append hb prev (c :: tr)
      cases hm : tryQualMatch prev (c :: tr) with
      | none =>
        have hm2 : tryQualMatch prev (c :: (tr ++ b)) = none := by
          rw [← List.cons_append, hqt, hm]
        simp only [List.cons_append, qualifyAux, hm2]
        rw [ih tr (some c) ?_]
        · rw [hm]
          simp
        · simp only [List.length_append, List.length_cons] at hf ⊢
          omega
      | some kr =>
        obtain ⟨kw, w, id, rest⟩ := kr
        have hm2 : tryQualMatch prev (c :: (tr ++ b)) = some (kw, w, id, rest ++ b) := by
          rw [← List.cons_append, hqt, hm]
        have hlt := tryQualMatch_some_length hm
        simp only [List.length_cons] at hlt
        simp only [List.cons_append, qualifyAux, hm2]
        rw [ih rest (some (id.getLastD ' ')) ?_]
        · rw [hm]
          dsimp only
          rw [qualifyAux_fuel tr.length rest.length _ rest (by omega) le_rfl,
            List.append_assoc]
        · simp only [List.length_append, List.length_cons] at hf ⊢
          omega

lemma lowerList_append (x y : List Char) :
    lowerList (x ++ y) = lowerList x ++ lowerList y := by
  simp [lowerList]

lemma generate_sql_congr_ws (raw1 raw2 db : String) (a X b2 : List Char)
    (ha : ∀ c ∈ a, isPySpace c = true) (hb : ∀ c ∈ b2, isPySpace c = true)
    (h1 : statementBoundary (stripFences raw1) = ⟨X⟩)
    (h2 : statementBoundary (stripFences raw2) = ⟨a ++ X ++ b2⟩) :
    generate_sql raw1 db = generate_sql raw2 db := by
  unfold generate_sql sanitizeText
  rw [h1, h2]
  have hpat1 : placeholderLit.data ≠ [] := by decide
  have hpat2 : ∀ c ∈ placeholderLit.data, isPySpace c = false := by decide
  have hrepl : pyReplace ⟨a ++ X ++ b2⟩ placeholderLit ("'" ++ db ++ "'") =
      ⟨a ++ (pyReplace ⟨X⟩ placeholderLit ("'" ++ db ++ "'")).data ++ b2⟩ := by
    show (⟨replaceAllAux placeholderLit.data ("'" ++ db ++ "'").data
      (a ++ X ++ b2).length (a ++ X ++ b2)⟩ : String) =
      ⟨a ++ replaceAllAux placeholderLit.data ("'" ++ db ++ "'").data X.length X ++ b2⟩
    rw [List.append_assoc, replaceAllAux_ws_prefix hpat1 hpat2 a ha _ _ le_rfl,
      replaceAllAux_ws_suffix hpat1 hpat2 hb _ X le_rfl, ← List.append_assoc]
  rw [hrepl]
  have hqual : qualify_table_names
      ⟨a ++ (pyReplace ⟨X⟩ placeholderLit ("'" ++ db ++ "'")).data ++ b2⟩ db =
      ⟨a ++ (qualify_table_names (pyReplace ⟨X⟩ placeholderLit ("'" ++ db ++ "'")) db).data
        ++ b2⟩ := by
    show (⟨qualifyAux db.data
      (a ++ (pyReplace ⟨X⟩ placeholderLit ("'" ++ db ++ "'")).data ++ b2).length none
      (a ++ (pyReplace ⟨X⟩ placeholderLit ("'" ++ db ++ "'")).data ++ b2)⟩ : String) =
      ⟨a ++ qualifyAux db.data (pyReplace ⟨X⟩ placeholderLit ("'" ++ db ++ "'")).data.length
        none (pyReplace ⟨X⟩ placeholderLit ("'" ++ db ++ "'")).data ++ b2⟩
    rw [List.append_assoc, qualifyAux_ws_prefix a ha _ none _ rfl le_rfl,
      qualifyAux_ws_suffix hb _ _ none le_rfl, ← List.append_assoc]
  rw [hqual]
  generalize qualify_table_names (pyReplace ⟨X⟩ placeholderLit ("'" ++ db ++ "'")) db = S
  have hinfo1 : ("information_schema".data : List Char) ≠ [] := by decide
  have hinfo2 : ∀ c ∈ "information_schema".data, isPySpace c = false := by decide
  have hc2 : containsSub "information_schema".data
      (lowerList (String.data ⟨a ++ S.data ++ b2⟩)) =
      containsSub "information_schema".data (lowerList S.data) := by
    show containsSub "information_schema".data (lowerList (a ++ S.data ++ b2)) =
      containsSub "information_schema".data (lowerList S.data)
    rw [lowerList_append, lowerList_append, lowerList_of_ws ha, lowerList_of_ws hb,
      containsSub_ws_right hinfo1 hinfo2 hb, containsSub_ws_left hinfo1 hinfo2 a ha]
  have hn2 : normalizeStmt ⟨a ++ S.data ++ b2⟩ = normalizeStmt S := by
    show (⟨firstStatementOf (stripList (a ++ S.data ++ b2))⟩ : String) =
      ⟨firstStatementOf (stripList S.data)⟩
    rw [stripList_absorb ha hb]
  rw [hc2, hn2]

/-! ### Claim theorems -/

/-- C1: the table-name qualification step is claimed to leave
already-qualified identifiers (containing a `.`) unchanged and to be
idempotent.  The code violates both: the capture `[a-zA-Z_][\w]*` stops
at the first `.`, so the `if "." in table` guard never fires and the
database prefix of an already-qualified reference is itself re-qualified.
This theorem evaluates the embedded source on the failing inputs:
a bare identifier is qualified as claimed, but a qualified reference is
rewritten and double application differs from single application. -/
theorem qualify_dot_check_dead :
    qualify_table_names "SELECT * FROM orders" "sales_db" = "SELECT * FROM sales_db.orders" ∧
    qualify_table_names "SELECT * FROM sales_db.orders" "sales_db" =
      "SELECT * FROM sales_db.sales_db.orders" ∧
    qualify_table_names (qualify_table_names "SELECT * FROM orders" "sales_db") "sales_db" =
      "SELECT * FROM sales_db.sales_db.orders" := by
  refine ⟨by decide, by decide, by decide⟩

/-- C2: whenever the text obtained after fence stripping, boundary
detection, placeholder substitution and qualification contains
`information_schema` in any case, the pipeline fails with the
restricted-namespace error and the `/analyze` route issues no
warehouse call. -/
theorem info_schema_blocked (raw db : String)
    (h : containsSub "information_schema".data (lowerList (sanitizeText raw db).data) = true) :
    generate_sql raw db = Except.error restrictedMsg ∧
    ∀ (schemas : SchemaCache) (prompt insightText : String)
      (wh : String → List Row × List String),
      (analyzeCore schemas prompt db raw wh insightText).warehouseCalled = false := by
  have hg : generate_sql raw db = Except.error restrictedMsg := by
    simp [generate_sql, h]
  refine ⟨hg, fun schemas prompt insightText wh => ?_⟩
  unfold analyzeCore
  split
  · rfl
  · split
    · rfl
    · rw [hg]

/-- Witness for C2 at a concrete raw output referencing
`information_schema`. -/
theorem info_schema_blocked_witness :
    generate_sql "SELECT 1 FROM information_schema.tables" "d" = Except.error restrictedMsg ∧
    (analyzeCore [("d", [])] "q" "d" "SELECT 1 FROM information_schema.tables"
      (fun _ => ([], [])) "i").warehouseCalled = false := by
  have h := info_schema_blocked "SELECT 1 FROM information_schema.tables" "d" (by decide)
  exact ⟨h.1, h.2 [("d", [])] "q" "i" (fun _ => ([], []))⟩

/-- C5 counterexample: if `connection.cursor()` raises (it runs before
the `try:` block), the connection is left open, so release is not
guaranteed on every exit path after acquisition begins. -/
theorem query_release_counterexample :
    (query_databricks ⟨false, true, false, false, false, false, [], []⟩ none).connOpen = true ∧
    (query_databricks ⟨false, true, false, false, false, false, [], []⟩ none).result =
      Except.error "cursor failed" := ⟨rfl, rfl⟩

/-- C5 amended: the connection and cursor are released on every exit
path — including exceptions from the `USE` directive, the statement
execution, or the fetch — provided cursor creation and the cursor's own
close do not raise; those two operations sit outside the protection of
the `try/finally`. -/
theorem query_release_amended (env : WhEnv) (dbName : Option String)
    (h1 : env.cursorFails = false) (h2 : env.cursorCloseFails = false) :
    (query_databricks env dbName).connOpen = false ∧
    (query_databricks env dbName).cursorOpen = false := by
  unfold query_databricks
  cases hc : env.connectFails
  · simp [hc, h1, h2]
  · simp [hc]

/-- Witness for C5 amended at a concrete failing execution (the
statement itself raises). -/
theorem query_release_amended_witness :
    (query_databricks ⟨false, false, false, true, false, false, [], []⟩ (some "db")).connOpen = false ∧
    (query_databricks ⟨false, false, false, true, false, false, [], []⟩ (some "db")).cursorOpen = false :=
  query_release_amended ⟨false, false, false, true, false, false, [], []⟩ (some "db") rfl rfl

/-- C7: on any read or parse failure of the persisted snapshot, the
schema-cache load returns the empty mapping (every lookup misses), and
— being a total function — never raises to its caller. -/
theorem load_schema_failure_empty (e d : String) :
    load_current_schema (Except.error e) = [] ∧
    pyLookup (load_current_schema (Except.error e)) d = none := ⟨rfl, rfl⟩

/-- C8: when the warehouse returns zero rows, the insight step is
replaced by the fixed no-data message and the generation service is not
called a second time; when the row set is non-empty, the insight step
is invoked. -/
theorem insight_gate (schemas : SchemaCache) (prompt db raw insightText q : String)
    (wh : String → List Row × List String)
    (hp : prompt ≠ "") (hd : db ≠ "")
    (hs : (pyLookup schemas db).isNone = false)
    (hg : generate_sql raw db = Except.ok q) :
    ((wh q).1 = [] →
      (analyzeCore schemas prompt db raw wh insightText).response =
        Except.ok ⟨q, (wh q).2, (wh q).1, noDataMsg⟩ ∧
      (analyzeCore schemas prompt db raw wh insightText).insightCalled = false) ∧
    ((wh q).1 ≠ [] →
      (analyzeCore schemas prompt db raw wh insightText).response =
        Except.ok ⟨q, (wh q).2, (wh q).1, insightText⟩ ∧
      (analyzeCore schemas prompt db raw wh insightText).insightCalled = true) := by
  have hcond : ¬(prompt = "" ∨ db = "") := by simp [hp, hd]
  unfold analyzeCore
  rw [if_neg hcond, if_neg (by simp [hs])]
  rw [hg]
  constructor
  · intro he
    have : (wh q).1.isEmpty = true := by simp [he]
    simp [this]
  · intro hne
    have : (wh q).1.isEmpty = false := by simpa using hne
    simp [this]

/-- Witness for C8 at a concrete empty warehouse result. -/
theorem insight_gate_witness :
    (analyzeCore [("d", [])] "q" "d" "SELECT 1" (fun _ => ([], ["c"])) "ins").response =
      Except.ok ⟨"SELECT 1", ["c"], [], noDataMsg⟩ ∧
    (analyzeCore [("d", [])] "q" "d" "SELECT 1" (fun _ => ([], ["c"])) "ins").insightCalled =
      false := by
  have h := insight_gate [("d", [])] "q" "d" "SELECT 1" "ins" "SELECT 1"
    (fun _ => ([], ["c"])) (by decide) (by decide) (by decide) rfl
  exact h.1 rfl

/-- C9: after a successful `/load_schema` for `db`, the snapshot file
and hence the reloaded in-memory cache hold exactly the one entry for
`db`; every other database previously cached is gone, and a subsequent
`/analyze` naming any other database fails with the unknown-database
error without a warehouse call. -/
theorem load_schema_wipes (st : ServerState) (db : String) (tables views : List RawEntity)
    (hdb : db ≠ "") (d prompt raw insightText : String)
    (wh : String → List Row × List String)
    (hd : d ≠ db) (hdne : d ≠ "") (hp : prompt ≠ "") :
    (load_schema_route st db true tables views).2 =
      Except.ok ("Schema for `" ++ db ++ "` loaded successfully.") ∧
    pyLookup (load_schema_route st db true tables views).1.schemas db ≠ none ∧
    (∀ d2, d2 ≠ db → pyLookup (load_schema_route st db true tables views).1.schemas d2 = none) ∧
    (analyzeCore (load_schema_route st db true tables views).1.schemas prompt d raw wh
        insightText).response = Except.error (400, "Unknown database: " ++ d) ∧
    (analyzeCore (load_schema_route st db true tables views).1.schemas prompt d raw wh
        insightText).warehouseCalled = false := by
  have hroute : load_schema_route st db true tables views =
      (⟨schemaScriptSnapshot db tables views,
        load_current_schema (Except.ok (schemaScriptSnapshot db tables views))⟩,
       Except.ok ("Schema for `" ++ db ++ "` loaded successfully.")) := by
    simp [load_schema_route, hdb]
  have hschemas : (load_schema_route st db true tables views).1.schemas =
      [(db, (tables ++ views).map fun e =>
        (e.name, e.columns.map fun c => (c.column_name, c.colType)))] := by
    rw [hroute]
    simp [load_current_schema, buildCache, schemaScriptSnapshot]
  have hnone : ∀ d2, d2 ≠ db →
      pyLookup (load_schema_route st db true tables views).1.schemas d2 = none := by
    intro d2 h2
    rw [hschemas]
    simp [pyLookup, List.find?, beq_eq_false_iff_ne.mpr (Ne.symm h2)]
  have hcond : ¬(prompt = "" ∨ d = "") := by simp [hp, hdne]
  have hana : analyzeCore (load_schema_route st db true tables views).1.schemas prompt d raw wh
      insightText = ⟨Except.error (400, "Unknown database: " ++ d), false, false⟩ := by
    unfold analyzeCore
    rw [if_neg hcond, if_pos (by simp [hnone d hd])]
  refine ⟨by rw [hroute], ?_, hnone, by rw [hana], by rw [hana]⟩
  rw [hschemas]
  simp [pyLookup, List.find?]

/-- Witness for C9: a database cached before the refresh is unknown
to `/analyze` afterwards. -/
theorem load_schema_wipes_witness :
    (analyzeCore (load_schema_route ⟨[], [("old", [])]⟩ "newdb" true [] []).1.schemas
        "q" "old" "SELECT 1" (fun _ => ([], [])) "i").response =
      Except.error (400, "Unknown database: old") ∧
    (analyzeCore (load_schema_route ⟨[], [("old", [])]⟩ "newdb" true [] []).1.schemas
        "q" "old" "SELECT 1" (fun _ => ([], [])) "i").warehouseCalled = false := by
  have h := load_schema_wipes ⟨[], [("old", [])]⟩ "newdb" [] [] (by decide)
    "old" "q" "SELECT 1" "i" (fun _ => ([], [])) (by decide) (by decide) (by decide)
  exact ⟨h.2.2.2.1, h.2.2.2.2⟩

/-- C3: statement-boundary detection discards every line before the
first line whose trimmed, lowercased content begins with a recognized
leading keyword, keeping `"\n".join` of the rest; when no line matches,
the text passes through unchanged. -/
theorem boundary_detection_correct (t : String) :
    ((∀ l ∈ boundaryLines t, lineMatches l = false) → statementBoundary t = t) ∧
    (∀ i, i < (boundaryLines t).length →
      lineMatches ((boundaryLines t).getD i []) = true →
      (∀ j, j < i → lineMatches ((boundaryLines t).getD j []) = false) →
      statementBoundary t = ⟨List.intercalate ['\n'] ((boundaryLines t).drop i)⟩) := by
  constructor
  · intro h
    unfold statementBoundary
    rw [findFirst_eq_none h]
  · intro i hi hp hmin
    unfold statementBoundary
    rw [findFirst_eq_some hi hp hmin]

/-- Witness for C3: both the discard case (first matching line at
index 1) and the pass-through case. -/
theorem boundary_detection_correct_witness :
    statementBoundary "noise\nselect 1\nmore" = "select 1\nmore" ∧
    statementBoundary "no keyword anywhere" = "no keyword anywhere" := by
  constructor
  · exact (boundary_detection_correct "noise\nselect 1\nmore").2 1 (by decide) (by decide)
      (by decide)
  · exact (boundary_detection_correct "no keyword anywhere").1 (by decide)

/-- C10: keyword recognition in boundary detection is a plain string
prefix test, not a whole-word test: any later line whose trimmed,
lowercased content merely starts with the characters of a recognized
keyword is treated as the start of the statement, and everything before
it is discarded. -/
theorem boundary_prefix_only (bad good : List Char)
    (hb1 : '\n' ∉ bad) (hg1 : '\n' ∉ good)
    (hh : isPySpace ((bad ++ '\n' :: good).headD ';') = false)
    (hl : isPySpace ((bad ++ '\n' :: good).getLastD ';') = false)
    (hbad : lineMatches bad = false)
    (k : String) (hk : k ∈ kws)
    (hpref : k.data.isPrefixOf (lowerList (stripList good)) = true) :
    statementBoundary ⟨bad ++ '\n' :: good⟩ = ⟨good⟩ := by
  have hgood : lineMatches good = true := by
    unfold lineMatches
    rw [List.any_eq_true]
    exact ⟨k, hk, hpref⟩
  have hdata : (⟨bad ++ '\n' :: good⟩ : String).data = bad ++ '\n' :: good := rfl
  have hlines : boundaryLines ⟨bad ++ '\n' :: good⟩ = [bad, good] := by
    unfold boundaryLines
    rw [hdata, stripList_eq_self _ hh hl, splitNl_append hb1, splitNl_of_not_mem hg1]
  have hfind : findFirst lineMatches [bad, good] = some 1 := by
    simp [findFirst, hbad, hgood]
  unfold statementBoundary
  rw [hlines, hfind]
  simp [List.intercalate]

/-- Witness for C10: a line starting with `users` (prefix `use`, not a
whole word) is taken as the statement start. -/
theorem boundary_prefix_only_witness :
    statementBoundary (String.mk ("no keyword".data ++ '\n' :: "users limit 5".data)) =
      String.mk "users limit 5".data :=
  boundary_prefix_only "no keyword".data "users limit 5".data (by decide) (by decide)
    (by decide) (by decide) (by decide) "use" (by decide) (by decide)

/-- C6: normalization keeps only the first parsed statement — for a
text consisting of one `;`-free statement followed by anything else,
the result is exactly that first statement (terminator included) and
every later statement is silently dropped. -/
theorem first_statement_only (a b : List Char) (h : ';' ∉ a)
    (hh : isPySpace ((a ++ ';' :: b).headD ';') = false)
    (hl : isPySpace ((a ++ ';' :: b).getLastD ';') = false) :
    normalizeStmt ⟨a ++ ';' :: b⟩ = ⟨a ++ [';']⟩ := by
  unfold normalizeStmt firstStatementOf
  have hdata : (⟨a ++ ';' :: b⟩ : String).data = a ++ ';' :: b := rfl
  rw [hdata, stripList_eq_self _ hh hl, splitStmtsAux_append h]
  simp

/-- Witness for C6: the statement after the first `;` is dropped. -/
theorem first_statement_only_witness :
    normalizeStmt (String.mk ("SELECT 1".data ++ ';' :: " DROP TABLE users".data)) =
      String.mk ("SELECT 1".data ++ [';']) :=
  first_statement_only "SELECT 1".data " DROP TABLE users".data (by decide) (by decide)
    (by decide)


/-- C4 counterexample: wrapping in a bare (untagged) code fence changes
the sanitized result — the fence-stripping substitutions only remove the
`sql`-tagged opening marker, so for a body with no recognized leading
keyword the opening fence survives the whole pipeline. -/
theorem fence_claim_counterexample :
    generate_sql "```\nfoo\n```" "d" = Except.ok "```\nfoo" ∧
    generate_sql "foo" "d" = Except.ok "foo" ∧
    ("```\nfoo" : String) ≠ "foo" := ⟨rfl, rfl, by decide⟩

/-- C4 amended: wrapping a raw output in a code fence — an opening
marker of three backticks carrying the `sql` language tag in any letter
case followed by a newline, and a trailing fence line — does not change
the sanitized result, for every body (empty or not, whatever its edge
whitespace) that contains no backtick; absence of fences is not an
error (the unwrapped text flows through the identical pipeline).  The
whitespace the fence substitutions swallow next to the markers is
exactly what the pipeline's own stripping discards anyway.  A bare
fence, or one with a language tag other than `sql`, is not removed by
the fence-stripping step. -/
theorem fence_wrap_invariant (body db : String) (s q l : Char)
    (hs : s.toLower = 's') (hq : q.toLower = 'q') (hl : l.toLower = 'l')
    (hmem : bt ∉ body.data) :
    generate_sql ⟨[bt, bt, bt, s, q, l, '\n'] ++ body.data ++ ['\n', bt, bt, bt]⟩ db =
      generate_sql body db := by
  have hfW := stripFences_fenced body hs hq hl hmem
  have hfB := stripFences_noticks body hmem
  have hlines : boundaryLines ⟨stripList body.data⟩ = boundaryLines body := by
    show splitNl (stripList (stripList body.data)) = splitNl (stripList body.data)
    rw [stripList_idem]
  cases hf : findFirst lineMatches (boundaryLines body) with
  | some i =>
    have hsb : statementBoundary ⟨stripList body.data⟩ = statementBoundary body := by
      unfold statementBoundary
      rw [hlines, hf]
    unfold generate_sql sanitizeText
    rw [hfW, hfB, hsb]
  | none =>
    have hsb1 : statementBoundary ⟨stripList body.data⟩ = ⟨stripList body.data⟩ := by
      unfold statementBoundary
      rw [hlines, hf]
    have hsb2 : statementBoundary body = body := by
      unfold statementBoundary
      rw [hf]
    refine generate_sql_congr_ws _ body db (body.data.takeWhile isPySpace)
      (stripList body.data)
      (((body.data.dropWhile isPySpace).reverse.takeWhile isPySpace).reverse)
      (fun c hc => List.mem_takeWhile_imp hc)
      (fun c hc => List.mem_takeWhile_imp (List.mem_reverse.mp hc)) ?_ ?_
    · rw [hfW, hsb1]
    · rw [hfB, hsb2]
      exact congrArg String.mk (strip_decomp body.data).symm

/-- Witness for C4 amended: an uppercase-tagged fence around a body
with whitespace at both edges. -/
theorem fence_wrap_invariant_witness :
    generate_sql (String.mk ([bt, bt, bt, 'S', 'Q', 'L', '\n'] ++ " SELECT 1 ".data ++
      ['\n', bt, bt, bt])) "d" = generate_sql " SELECT 1 " "d" :=
  fence_wrap_invariant " SELECT 1 " "d" 'S' 'Q' 'L' (by decide) (by decide) (by decide)
    (by decide)

end NL2SQL
